import Mathlib

/-!
Verification development for the refinement orchestration engine of the
ide-orchestrator repository.  The Python services under src/ are shallowly
embedded as pure Lean functions over an explicit database-state record;
wall-clock reads (datetime.utcnow) become explicit Nat parameters, fallible
code returns Except, and outcomes of outbound HTTP calls are passed in as
explicit parameters so that every branch of the source is represented.
-/

namespace IdeOrch

/-- Python runtime values as they occur in `generated_files` payloads and
JSON documents handled by the services (src/services/draft_service.py,
src/services/orchestration_service.py). -/
inductive PyVal where
  | pyNone
  | pyBool (b : Bool)
  | pyInt (n : Int)
  | pyStr (s : String)
  | pyList (xs : List PyVal)
  | pyDict (entries : List (String × PyVal))

mutual

/-- Boolean equality on PyVal (Python structural equality on these shapes). -/
def PyVal.beq : PyVal → PyVal → Bool
  | .pyNone, .pyNone => true
  | .pyBool a, .pyBool b => a == b
  | .pyInt a, .pyInt b => a == b
  | .pyStr a, .pyStr b => a == b
  | .pyList a, .pyList b => PyVal.beqList a b
  | .pyDict a, .pyDict b => PyVal.beqEntries a b
  | _, _ => false

/-- Equality on lists of PyVal. -/
def PyVal.beqList : List PyVal → List PyVal → Bool
  | [], [] => true
  | a :: as, b :: bs => PyVal.beq a b && PyVal.beqList as bs
  | _, _ => false

/-- Equality on association lists of PyVal. -/
def PyVal.beqEntries : List (String × PyVal) → List (String × PyVal) → Bool
  | [], [] => true
  | (k, a) :: as, (l, b) :: bs => k == l && PyVal.beq a b && PyVal.beqEntries as bs
  | _, _ => false

end

mutual

theorem PyVal.beq_iff : ∀ a b : PyVal, PyVal.beq a b = true ↔ a = b
  | .pyNone, b => by cases b <;> simp [PyVal.beq]
  | .pyBool a, b => by cases b <;> simp [PyVal.beq]
  | .pyInt a, b => by cases b <;> simp [PyVal.beq]
  | .pyStr a, b => by cases b <;> simp [PyVal.beq]
  | .pyList a, b => by
      cases b <;> simp [PyVal.beq]
      exact PyVal.beqList_iff a _
  | .pyDict a, b => by
      cases b <;> simp [PyVal.beq]
      exact PyVal.beqEntries_iff a _

theorem PyVal.beqList_iff : ∀ a b : List PyVal, PyVal.beqList a b = true ↔ a = b
  | [], b => by cases b <;> simp [PyVal.beqList]
  | x :: xs, b => by
      cases b with
      | nil => simp [PyVal.beqList]
      | cons y ys =>
          simp only [PyVal.beqList, Bool.and_eq_true, List.cons.injEq]
          rw [PyVal.beq_iff x y, PyVal.beqList_iff xs ys]

theorem PyVal.beqEntries_iff :
    ∀ a b : List (String × PyVal), PyVal.beqEntries a b = true ↔ a = b
  | [], b => by cases b <;> simp [PyVal.beqEntries]
  | (k, x) :: xs, b => by
      cases b with
      | nil => simp [PyVal.beqEntries]
      | cons y ys =>
          obtain ⟨l, v⟩ := y
          simp only [PyVal.beqEntries, Bool.and_eq_true, List.cons.injEq, Prod.mk.injEq,
            beq_iff_eq, PyVal.beq_iff x v, PyVal.beqEntries_iff xs ys, and_assoc]

end

instance : DecidableEq PyVal := fun a b =>
  decidable_of_iff (PyVal.beq a b = true) (PyVal.beq_iff a b)

mutual

/-- Python repr of a value, as used when str() falls back to repr inside
containers (approximation: string escaping inside repr is elided). -/
def PyVal.pyRepr : PyVal → String
  | .pyNone => "None"
  | .pyBool b => cond b "True" "False"
  | .pyInt n => toString n
  | .pyStr s => "\x27" ++ s ++ "\x27"
  | .pyList xs => "[" ++ PyVal.pyReprList xs ++ "]"
  | .pyDict es => "\x7b" ++ PyVal.pyReprEntries es ++ "\x7d"

/-- Comma-joined repr of list elements. -/
def PyVal.pyReprList : List PyVal → String
  | [] => ""
  | [x] => PyVal.pyRepr x
  | x :: xs => PyVal.pyRepr x ++ ", " ++ PyVal.pyReprList xs

/-- Comma-joined repr of dict entries. -/
def PyVal.pyReprEntries : List (String × PyVal) → String
  | [] => ""
  | [(k, v)] => "\x27" ++ k ++ "\x27: " ++ PyVal.pyRepr v
  | (k, v) :: es => "\x27" ++ k ++ "\x27: " ++ PyVal.pyRepr v ++ ", " ++ PyVal.pyReprEntries es

end

/-- Python str() of a value: identity on strings, repr otherwise. -/
def PyVal.pyStrOf : PyVal → String
  | .pyStr s => s
  | v => PyVal.pyRepr v

/-- Lookup in a Python dict modelled as an association list (parsed JSON and
Python dict literals carry at most one entry per key, so first match is the
entry). -/
def dictLookup (es : List (String × PyVal)) (k : String) : Option PyVal :=
  (es.find? (fun e => e.1 == k)).map (fun e => e.2)

/-- Whether a PyVal is a Python dict (isinstance(file_data, dict)). -/
def PyVal.isDict : PyVal → Bool
  | .pyDict _ => true
  | _ => false

/-- Content normalisation from src/services/draft_service.py lines 111-118
(also src/services/orchestration_service.py lines 406-413): a str is kept, a
list is joined with newlines element-wise through str(), anything else goes
through str(). -/
def normalizeContent : PyVal → String
  | .pyStr s => s
  | .pyList xs => String.intercalate "\n" (xs.map PyVal.pyStrOf)
  | v => PyVal.pyStrOf v

/-- Per-entry validation from src/services/draft_service.py lines 107-118:
entries that are not dicts or lack a "content" key are skipped (none);
otherwise the normalised content and the "type" value (default "markdown")
are extracted. -/
def processEntry : PyVal → Option (String × PyVal)
  | .pyDict es =>
      match dictLookup es "content" with
      | none => none
      | some c => some (normalizeContent c, (dictLookup es "type").getD (.pyStr "markdown"))
  | _ => none

/-- One row of the draft_specification_files table.  The id column is omitted:
ON CONFLICT keeps the original id and nothing reads it. -/
structure DraftFileRow where
  draftId : String
  filePath : String
  content : String
  fileType : PyVal
  createdAt : Nat
  updatedAt : Nat
  deriving DecidableEq

/-- UPSERT into draft_specification_files per the
INSERT ... ON CONFLICT (draft_id, file_path) DO UPDATE statement of
src/services/draft_service.py lines 121-141: on conflict the row keeps its
position and created_at and takes the new content, file_type and updated_at;
otherwise a fresh row is appended. -/
def upsertDraftFile (rows : List DraftFileRow) (did path content : String)
    (ftype : PyVal) (now : Nat) : List DraftFileRow :=
  if rows.any (fun r => r.draftId == did && r.filePath == path) then
    rows.map (fun r =>
      if r.draftId == did && r.filePath == path then
        { r with content := content, fileType := ftype, updatedAt := now }
      else r)
  else
    rows ++ [⟨did, path, content, ftype, now, now⟩]

/-- One iteration of the per-entry loop of apply_files_to_draft: skip an
invalid entry, upsert a valid one and count it. -/
def applyFileStep (did : String) (now : Nat) (acc : List DraftFileRow × Nat)
    (entry : String × PyVal) : List DraftFileRow × Nat :=
  match processEntry entry.2 with
  | none => acc
  | some (c, t) => (upsertDraftFile acc.1 did entry.1 c t now, acc.2 + 1)

/-- The per-entry loop shared verbatim by
src/services/draft_service.py apply_files_to_draft (lines 107-142) and
src/services/orchestration_service.py _apply_files_to_draft (lines 402-436):
skip invalid entries, upsert the rest, count the processed ones. -/
def applyFilesPass (rows : List DraftFileRow) (did : String)
    (gen : List (String × PyVal)) (now : Nat) : List DraftFileRow × Nat :=
  gen.foldl (applyFileStep did now) (rows, 0)

/-- DraftService.apply_files_to_draft (src/services/draft_service.py lines
80-146): empty payloads return 0 immediately, a missing draft raises
ValueError "Draft not found", otherwise every entry is processed and the
count of processed entries is returned. -/
def apply_files_to_draft (draftExists : Bool) (rows : List DraftFileRow)
    (did : String) (gen : List (String × PyVal)) (now : Nat) :
    Except String (List DraftFileRow × Nat) :=
  if gen.isEmpty then .ok (rows, 0)
  else if draftExists then .ok (applyFilesPass rows did gen now)
  else .error "Draft not found"

/-- The content-relevant view of a file row: key, content body and type.
Timestamps are excluded so that statements about "the same final draft
content" quantify over application times. -/
def dfView (rows : List DraftFileRow) : List ((String × String) × String × PyVal) :=
  rows.map (fun r => ((r.draftId, r.filePath), r.content, r.fileType))

/-- Keys of the file rows, used for the unique-index invariant of
draft_specification_files. -/
def dfKeys (rows : List DraftFileRow) : List (String × String) :=
  rows.map (fun r => (r.draftId, r.filePath))

/-- First row with the given key (the table has a unique index on
(draft_id, file_path), so at most one row matches). -/
def dfLookup (rows : List DraftFileRow) (did path : String) : Option DraftFileRow :=
  rows.find? (fun r => r.draftId == did && r.filePath == path)

/-- One row of the workflows table (the columns the orchestration engine
reads). -/
structure WorkflowRow where
  wid : String
  name : String
  isLocked : Bool
  createdByUserId : String
  deriving DecidableEq

/-- One row of the drafts table (columns the orchestration engine reads). -/
structure DraftRow where
  did : String
  workflowId : String
  createdByUserId : String
  deriving DecidableEq

/-- One row of the proposals table. -/
structure ProposalRow where
  pid : String
  draftId : String
  threadId : String
  userPrompt : String
  contextFilePath : Option String
  contextSelection : Option String
  status : String
  aiGeneratedContent : Option String
  generatedFiles : Option (List (String × PyVal))
  createdByUserId : String
  createdAt : Nat
  completedAt : Option Nat
  resolvedByUserId : Option String
  resolvedAt : Option Nat
  resolution : Option String
  deriving DecidableEq

/-- The relational state the services read and write.  proposalAccess rows
are (proposal_id, user_id, granted_at). -/
structure DBState where
  workflows : List WorkflowRow
  drafts : List DraftRow
  proposals : List ProposalRow
  proposalAccess : List (String × String × Nat)
  draftFiles : List DraftFileRow
  deriving DecidableEq

/-- UPDATE proposals ... WHERE id = pid: rewrite every matching row (the
primary key makes at most one row match in a well-formed state). -/
def mapProposal (st : DBState) (pid : String) (f : ProposalRow → ProposalRow) : DBState :=
  { st with proposals := st.proposals.map (fun p => if p.pid == pid then f p else p) }

/-- Python truthiness of an optional files mapping (None and the empty dict
are falsy). -/
def genFilesTruthy : Option (List (String × PyVal)) → Bool
  | none => false
  | some g => !g.isEmpty

/-- ProposalService.update_proposal_results (src/services/proposal_service.py
lines 134-166): unconditionally overwrites status, ai_generated_content and
generated_files, and writes completed_at = now exactly when the new status is
"completed" or "failed" (NULL otherwise).  There is no guard on the current
status of the row. -/
def update_proposal_results (st : DBState) (pid status auditJson : String)
    (gen : Option (List (String × PyVal))) (now : Nat) : DBState :=
  mapProposal st pid (fun q =>
    { q with
      status := status
      aiGeneratedContent := some auditJson
      generatedFiles := if genFilesTruthy gen then gen else none
      completedAt := if status == "completed" || status == "failed" then some now else none })

/-- Python json.dumps on a plain string payload (escaping elided: the
payloads written by this code path contain no quotes or backslashes). -/
def jsonDumpsStr (s : String) : String := "\x22" ++ s ++ "\x22"

/-- OrchestrationService._update_proposal_results
(src/services/orchestration_service.py lines 268-292): same UPDATE as the
proposal-service version, except ai_generated_content is
json.dumps(result) when result is truthy and NULL otherwise. -/
def orch_update_proposal_results (st : DBState) (pid status : String)
    (result : Option String) (gen : Option (List (String × PyVal))) (now : Nat) : DBState :=
  mapProposal st pid (fun q =>
    { q with
      status := status
      aiGeneratedContent :=
        match result with
        | none => none
        | some r => if r.isEmpty then none else some (jsonDumpsStr r)
      generatedFiles := if genFilesTruthy gen then gen else none
      completedAt := if status == "completed" || status == "failed" then some now else none })

/-- The SELECT ... FOR UPDATE of OrchestrationService.approve_proposal
(src/services/orchestration_service.py lines 344-355): proposals joined with
proposal_access (on the acting user) and drafts; yields the proposal row and
its draft when every join leg matches. -/
def approveLookup (st : DBState) (pid uid : String) : Option (ProposalRow × DraftRow) :=
  match st.proposals.find? (fun p => p.pid == pid) with
  | none => none
  | some p =>
      if st.proposalAccess.any (fun a => a.1 == pid && a.2.1 == uid) then
        (st.drafts.find? (fun d => d.did == p.draftId)).map (fun d => (p, d))
      else none

/-- The mutation half of approve_proposal (src/services/orchestration_service.py
lines 377-389): apply generated_files to the draft when the snapshot is
truthy, then update the proposal row to status "approved" with
resolved_by_user_id and resolved_at (the resolution and completed_at columns
are not written). -/
def approveCommit (st : DBState) (p : ProposalRow) (uid : String) (now : Nat) : DBState :=
  let rows :=
    if genFilesTruthy p.generatedFiles then
      (applyFilesPass st.draftFiles p.draftId (p.generatedFiles.getD []) now).1
    else st.draftFiles
  mapProposal { st with draftFiles := rows } p.pid (fun q =>
    { q with status := "approved", resolvedByUserId := some uid, resolvedAt := some now })

/-- OrchestrationService.approve_proposal (src/services/orchestration_service.py
lines 329-389), run inside one transaction.  Checks in source order: join
lookup (ValueError "Proposal not found"), status = "completed" (ValueError
"Proposal is not ready for approval"), workflow lock (only when the workflow
row exists), then the commit step. -/
def approve_proposal (st : DBState) (pid uid : String) (now : Nat) :
    Except String DBState :=
  match approveLookup st pid uid with
  | none => .error "Proposal not found"
  | some (p, d) =>
      if p.status ≠ "completed" then .error "Proposal is not ready for approval"
      else
        match st.workflows.find? (fun w => w.wid == d.workflowId) with
        | some w =>
            if w.isLocked then .error "Workflow is locked by another operation"
            else .ok (approveCommit st p uid now)
        | none => .ok (approveCommit st p uid now)

/-- The database state after an approve_proposal call: the new state on
success, the original state when the transaction raised and rolled back
(psycopg conn.transaction semantics). -/
def approveEffect (st : DBState) (pid uid : String) (now : Nat) : DBState :=
  match approve_proposal st pid uid now with
  | .ok st2 => st2
  | .error _ => st

/-- OrchestrationService.reject_proposal (src/services/orchestration_service.py
lines 438-475): access-checked lookup over proposals joined with
proposal_access (no status requirement, no drafts join), then an UPDATE of the
proposal row alone to status "rejected" with resolved_by_user_id and
resolved_at. -/
def reject_proposal (st : DBState) (pid uid : String) (now : Nat) :
    Except String DBState :=
  if (st.proposals.any (fun p => p.pid == pid)) &&
      (st.proposalAccess.any (fun a => a.1 == pid && a.2.1 == uid)) then
    .ok (mapProposal st pid (fun q =>
      { q with status := "rejected", resolvedByUserId := some uid, resolvedAt := some now }))
  else .error "Proposal not found"

/-- The database state after a reject_proposal call (on the raising path no
UPDATE was issued, so the state is unchanged). -/
def rejectEffect (st : DBState) (pid uid : String) (now : Nat) : DBState :=
  match reject_proposal st pid uid now with
  | .ok st2 => st2
  | .error _ => st

/-- OrchestrationService.create_refinement_proposal
(src/services/orchestration_service.py lines 98-179): validates the draft
and its owner, inserts the proposal row with thread id
"refinement-" ++ proposal id and status "processing" plus an access row, and
returns (proposal_id, thread_id).  The runtime invoke happens afterwards in a
detached background task (asyncio.create_task), modelled separately by
process_refinement_async; this function itself never contacts the runtime. -/
def create_refinement_proposal (st : DBState) (draftId uid userPrompt : String)
    (ctxPath ctxSel : Option String) (newId : String) (now : Nat) :
    Except String (DBState × String × String) :=
  match st.drafts.find? (fun d => d.did == draftId) with
  | none => .error "Draft not found"
  | some d =>
      match st.workflows.find? (fun w => w.wid == d.workflowId) with
      | none => .error "Draft not found"
      | some w =>
          if w.createdByUserId ≠ uid then .error "Access denied to draft"
          else
            let tid := "refinement-" ++ newId
            .ok
              ({ st with
                  proposals := st.proposals ++
                    [{ pid := newId, draftId := draftId, threadId := tid,
                       userPrompt := userPrompt, contextFilePath := ctxPath,
                       contextSelection := ctxSel, status := "processing",
                       aiGeneratedContent := none, generatedFiles := none,
                       createdByUserId := uid, createdAt := now, completedAt := none,
                       resolvedByUserId := none, resolvedAt := none, resolution := none }]
                  proposalAccess := st.proposalAccess ++ [(newId, uid, now)] },
                newId, tid)

/-- Possible outcomes of the background runtime interaction in
OrchestrationService._process_refinement_async
(src/services/orchestration_service.py lines 181-266): the circuit breaker
refused the call, the invoke or state call raised, the state call answered
200 with a result and generated files, or the state call answered non-200. -/
inductive RuntimeOutcome where
  | breakerOpen
  | raised (msg : String)
  | completedState (result : Option String) (files : Option (List (String × PyVal)))
  | stateNon200
  deriving DecidableEq

/-- OrchestrationService._process_refinement_async
(src/services/orchestration_service.py lines 181-266), parameterised by the
runtime outcome: every failure path marks the proposal "failed", the success
path marks it "completed" with the fetched files (missing files default to
the empty dict by state_data.get). -/
def process_refinement_async (st : DBState) (pid : String)
    (outcome : RuntimeOutcome) (now : Nat) : DBState :=
  match outcome with
  | .breakerOpen =>
      orch_update_proposal_results st pid "failed"
        (some "AI service temporarily unavailable") (some []) now
  | .raised msg => orch_update_proposal_results st pid "failed" (some msg) (some []) now
  | .completedState result files =>
      orch_update_proposal_results st pid "completed" result (some (files.getD [])) now
  | .stateNon200 => orch_update_proposal_results st pid "failed" none (some []) now

/-- Exception classes relevant to the circuit breaker configuration of
src/services/deepagents_client.py: httpx.HTTPStatusError is the excluded
class; every exception actually raised by invoke_job and get_execution_state
is a plain Exception. -/
inductive PyExc where
  | generic (msg : String)
  | httpStatusError
  deriving DecidableEq

/-- Whether pybreaker treats the exception as excluded (not a breaker
failure), per exclude=[httpx.HTTPStatusError] at
src/services/deepagents_client.py lines 19-23. -/
def excludedExc : PyExc → Bool
  | .httpStatusError => true
  | .generic _ => false

/-- What one underlying wrapped call would do if executed. -/
inductive CallOutcome where
  | success
  | raise (exc : PyExc)
  deriving DecidableEq

/-- State of a pybreaker CircuitBreaker: closed with a consecutive-failure
counter, or open since a given instant.  (Half-open is transient inside a
call and needs no stored state.) -/
inductive BreakerState where
  | closed (counter : Nat)
  | opened (openedAt : Nat)
  deriving DecidableEq

/-- Result of a guarded call: fastFail means the breaker was open and the
underlying call was never attempted. -/
inductive GuardResult where
  | fastFail
  | ok
  | errored (excluded : Bool)
  deriving DecidableEq

/-- pybreaker semantics for one guarded call with the configuration of
deepagents_breaker.  Closed: a success or an excluded exception resets the
counter, a counted failure increments it and opens the breaker at fail_max.
Open: within reset_timeout of opening the call fails fast without being
attempted; afterwards a half-open trial runs the call, closing on success or
excluded exception and re-opening on a counted failure. -/
def breakerCall (b : BreakerState) (failMax resetTimeout now : Nat)
    (outcome : CallOutcome) : BreakerState × GuardResult :=
  match b with
  | .opened t =>
      if now < t + resetTimeout then (b, .fastFail)
      else
        match outcome with
        | .success => (.closed 0, .ok)
        | .raise e =>
            if excludedExc e then (.closed 0, .errored true)
            else (.opened now, .errored false)
  | .closed c =>
      match outcome with
      | .success => (.closed 0, .ok)
      | .raise e =>
          if excludedExc e then (.closed 0, .errored true)
          else if failMax ≤ c + 1 then (.opened now, .errored false)
          else (.closed (c + 1), .errored false)

/-- fail_max of deepagents_breaker (src/services/deepagents_client.py line 20). -/
def deepagentsFailMax : Nat := 5

/-- reset_timeout of deepagents_breaker (src/services/deepagents_client.py
line 21), in seconds. -/
def deepagentsResetTimeout : Nat := 60

/-- Result of one attempted HTTP exchange with the runtime: a response with a
status code, or a transport-level failure (httpx.RequestError). -/
inductive HttpAttempt where
  | response (status : Nat)
  | transportError (msg : String)
  deriving DecidableEq

/-- The exception DeepAgentsRuntimeClient.invoke_job raises for a given HTTP
exchange (src/services/deepagents_client.py lines 55-76): none on a 200
response; a plain Exception both for a non-200 response and for a wrapped
httpx.RequestError.  httpx.HTTPStatusError is never raised because the code
never calls raise_for_status. -/
def invoke_job_exc : HttpAttempt → Option PyExc
  | .response s =>
      if s == 200 then none
      else some (.generic ("Deepagents-runtime invoke failed: " ++ toString s))
  | .transportError m => some (.generic ("Network error calling deepagents-runtime: " ++ m))

/-- The call outcome the breaker observes for one invoke_job attempt. -/
def invokeOutcome (a : HttpAttempt) : CallOutcome :=
  match invoke_job_exc a with
  | none => .success
  | some e => .raise e

/-- A sequence of guarded invoke_job calls at given instants: folds
breakerCall with the deepagents_breaker configuration, recording each
result.  When the breaker fails fast the attempt is never made. -/
def runDeepagentsCalls (b : BreakerState) (calls : List (Nat × HttpAttempt)) :
    BreakerState × List GuardResult :=
  calls.foldl
    (fun acc c =>
      let step := breakerCall acc.1 deepagentsFailMax deepagentsResetTimeout c.1
        (invokeOutcome c.2)
      (step.1, acc.2 ++ [step.2]))
    (b, [])

/-- DeepAgentsRuntimeClient.cleanup_thread_data
(src/services/deepagents_client.py lines 120-157): totally defined on every
attempt outcome (the body catches every exception), true exactly for a 200,
204 or 404 response. -/
def cleanup_thread_data (threadId : String) (a : HttpAttempt) : Bool :=
  match a with
  | .response s => s == 200 || s == 204 || s == 404
  | .transportError _ => false

/-- Substring test on character lists (does hay start with sub). -/
def charsStartWith : List Char → List Char → Bool
  | _, [] => true
  | [], _ :: _ => false
  | h :: hs, s :: ss => h == s && charsStartWith hs ss

/-- Substring containment on character lists (Python "sub in hay" on str). -/
def charsContain (hay sub : List Char) : Bool :=
  charsStartWith hay sub ||
    match hay with
    | [] => false
    | _ :: t => charsContain t sub

/-- Python "sub in hay" for strings. -/
def strContainsSub (hay sub : String) : Bool :=
  charsContain hay.data sub.data

/-- The except-clause of the create_refinement HTTP handler
(src/api/routers/refinements.py lines 55-66) mapping an escaped exception to
a status code: ValueError messages map on substrings "not found" → 404 and
"access denied" → 403, otherwise 400; any other exception maps to 503 when
its text contains "deepagents-runtime unavailable" and 500 otherwise. -/
def refinementErrorStatus (isValueError : Bool) (msg : String) : Nat :=
  if isValueError then
    if strContainsSub msg.toLower "not found" then 404
    else if strContainsSub msg.toLower "access denied" then 403
    else 400
  else if strContainsSub msg "deepagents-runtime unavailable" then 503
  else 500

/-- The create_refinement HTTP handler (src/api/routers/refinements.py lines
13-66) around create_refinement_proposal, assuming the workflow and
instructions pre-checks passed and get_or_create_draft succeeded: a service
success yields HTTP 202 with the ids, a ValueError maps through
refinementErrorStatus.  Every error create_refinement_proposal raises is a
ValueError. -/
def create_refinement_http (st : DBState) (draftId uid userPrompt : String)
    (ctxPath ctxSel : Option String) (newId : String) (now : Nat) :
    Nat × Option (String × String) :=
  match create_refinement_proposal st draftId uid userPrompt ctxPath ctxSel newId now with
  | .ok (_, propId, tid) => (202, some (propId, tid))
  | .error msg => (refinementErrorStatus true msg, none)

/-- JSON values, as produced by json.loads on a runtime stream message. -/
inductive Json where
  | null
  | jbool (b : Bool)
  | jnum (n : Int)
  | jstr (s : String)
  | jarr (xs : List Json)
  | jobj (fields : List (String × Json))

mutual

/-- Structural equality on Json (Python == on parsed JSON values of these
shapes). -/
def Json.beq : Json → Json → Bool
  | .null, .null => true
  | .jbool a, .jbool b => a == b
  | .jnum a, .jnum b => a == b
  | .jstr a, .jstr b => a == b
  | .jarr a, .jarr b => Json.beqList a b
  | .jobj a, .jobj b => Json.beqFields a b
  | _, _ => false

/-- Equality on Json lists. -/
def Json.beqList : List Json → List Json → Bool
  | [], [] => true
  | a :: as, b :: bs => Json.beq a b && Json.beqList as bs
  | _, _ => false

/-- Equality on Json object fields. -/
def Json.beqFields : List (String × Json) → List (String × Json) → Bool
  | [], [] => true
  | (k, a) :: as, (l, b) :: bs => k == l && Json.beq a b && Json.beqFields as bs
  | _, _ => false

end

mutual

theorem Json.beq_true_iff : ∀ a b : Json, Json.beq a b = true ↔ a = b
  | .null, b => by cases b <;> simp [Json.beq]
  | .jbool a, b => by cases b <;> simp [Json.beq]
  | .jnum a, b => by cases b <;> simp [Json.beq]
  | .jstr a, b => by cases b <;> simp [Json.beq]
  | .jarr a, b => by
      cases b <;> simp [Json.beq]
      exact Json.beqList_true_iff a _
  | .jobj a, b => by
      cases b <;> simp [Json.beq]
      exact Json.beqFields_iff a _

theorem Json.beqList_true_iff : ∀ a b : List Json, Json.beqList a b = true ↔ a = b
  | [], b => by cases b <;> simp [Json.beqList]
  | x :: xs, b => by
      cases b with
      | nil => simp [Json.beqList]
      | cons y ys =>
          simp only [Json.beqList, Bool.and_eq_true, List.cons.injEq,
            Json.beq_true_iff x y, Json.beqList_true_iff xs ys]

theorem Json.beqFields_iff :
    ∀ a b : List (String × Json), Json.beqFields a b = true ↔ a = b
  | [], b => by cases b <;> simp [Json.beqFields]
  | (k, x) :: xs, b => by
      cases b with
      | nil => simp [Json.beqFields]
      | cons y ys =>
          obtain ⟨l, v⟩ := y
          simp only [Json.beqFields, Bool.and_eq_true, List.cons.injEq, Prod.mk.injEq,
            beq_iff_eq, Json.beq_true_iff x v, Json.beqFields_iff xs ys, and_assoc]

end

instance : DecidableEq Json := fun a b =>
  decidable_of_iff (Json.beq a b = true) (Json.beq_true_iff a b)

/-- Python dict lookup on a parsed JSON object (json.loads keeps one entry
per key, so first match is the entry). -/
def jobjLookup (fs : List (String × Json)) (k : String) : Option Json :=
  (fs.find? (fun e => e.1 == k)).map (fun e => e.2)

/-- One inbound message of the runtime stream: raw text that json.loads
rejects, or the parsed JSON value. -/
inductive RuntimeMsg where
  | nonJSON (raw : String)
  | json (v : Json)

/-- Whether the message parses as JSON. -/
def RuntimeMsg.isJson : RuntimeMsg → Bool
  | .nonJSON _ => false
  | .json _ => true

/-- Python event.get("event_type") == name for a parsed event object: true
exactly when the field holds the string name. -/
def isEventType (etype : Option Json) (name : String) : Bool :=
  match etype with
  | some (.jstr s) => s == name
  | _ => false

/-- Python evaluation of ("files" in x): key membership for dicts, element
membership for lists, substring for strings, TypeError (error) otherwise. -/
def pyContainsFiles : Json → Except Unit Bool
  | .jobj fs => .ok (fs.any (fun e => e.1 == "files"))
  | .jarr xs => .ok (xs.any (fun x => Json.beq x (.jstr "files")))
  | .jstr s => .ok (strContainsSub s "files")
  | _ => .error ()

/-- Python evaluation of x["files"]: dict lookup (KeyError when missing),
TypeError for every other shape indexed by a string. -/
def pyIndexFiles : Json → Except Unit Json
  | .jobj fs =>
      match jobjLookup fs "files" with
      | some v => .ok v
      | none => .error ()
  | _ => .error ()

/-- Accumulated state of the runtime-to-client relay
(deepagents_to_client in src/api/routers/websockets.py lines 173-206):
final_files starts as the empty dict, forwarded collects the events sent to
the client in order, handedOff is the snapshot passed to the background
update task on the end event, ended records the break. -/
structure RelayAcc where
  finalFiles : Json
  forwarded : List Json
  handedOff : Option Json
  ended : Bool
  deriving DecidableEq

/-- The initial relay state. -/
def relayInit : RelayAcc := ⟨.jobj [], [], none, false⟩

/-- The files-extraction phase of one loop iteration
(src/api/routers/websockets.py lines 183-186): for an on_state_update event
evaluate ("files" in event.get("data", dict())) and, when true,
event["data"]["files"]; an error result models a raised TypeError or
KeyError, which the surrounding except-clause turns into skipping the
message. -/
def extractFiles (fields : List (String × Json)) (current : Json) : Except Unit Json :=
  if isEventType (jobjLookup fields "event_type") "on_state_update" then
    match pyContainsFiles ((jobjLookup fields "data").getD (.jobj [])) with
    | .error _ => .error ()
    | .ok true =>
        match jobjLookup fields "data" with
        | some d => pyIndexFiles d
        | none => .error ()
    | .ok false => .ok current
  else .ok current

/-- One iteration of the runtime-to-client relay loop
(src/api/routers/websockets.py lines 177-201): non-JSON messages are logged
and skipped; a parsed non-object raises AttributeError on event.get and is
skipped; extraction errors are caught and skip the message before it is
forwarded; otherwise the event is forwarded and, if it is the end event, the
current snapshot is handed to the background update task and the loop
breaks. -/
def relayStep (acc : RelayAcc) (msg : RuntimeMsg) : RelayAcc :=
  if acc.ended then acc
  else
    match msg with
    | .nonJSON _ => acc
    | .json ev =>
        match ev with
        | .jobj fields =>
            match extractFiles fields acc.finalFiles with
            | .error _ => acc
            | .ok newFiles =>
                let acc2 : RelayAcc :=
                  { acc with finalFiles := newFiles, forwarded := acc.forwarded ++ [ev] }
                if isEventType (jobjLookup fields "event_type") "end" then
                  { acc2 with handedOff := some acc2.finalFiles, ended := true }
                else acc2
        | _ => acc

/-- The whole runtime-to-client relay over a message sequence. -/
def relayRun (msgs : List RuntimeMsg) : RelayAcc :=
  msgs.foldl relayStep relayInit

/-- Modelled from the spec (4.6 Streaming Proxy), for refinement comparison
with relayRun: parse each message as an event and forward it in arrival
order; when the event is an on_state_update whose data carries a files
field, remember that as the latest snapshot; on the end event hand the
latest snapshot over and terminate; non-JSON messages are skipped. -/
def specRelayStep (acc : RelayAcc) (msg : RuntimeMsg) : RelayAcc :=
  if acc.ended then acc
  else
    match msg with
    | .nonJSON _ => acc
    | .json ev =>
        let fields := match ev with | .jobj fs => fs | _ => []
        let newFiles :=
          if isEventType (jobjLookup fields "event_type") "on_state_update" then
            match (jobjLookup fields "data").getD (.jobj []) with
            | .jobj dfs =>
                match jobjLookup dfs "files" with
                | some v => v
                | none => acc.finalFiles
            | _ => acc.finalFiles
          else acc.finalFiles
        let acc2 : RelayAcc :=
          { acc with finalFiles := newFiles, forwarded := acc.forwarded ++ [ev] }
        if isEventType (jobjLookup fields "event_type") "end" then
          { acc2 with handedOff := some acc2.finalFiles, ended := true }
        else acc2

/-- The spec-side relay over a message sequence. -/
def specRelay (msgs : List RuntimeMsg) : RelayAcc :=
  msgs.foldl specRelayStep relayInit

/-- The message shapes on which the implemented relay matches the described
one: anything non-JSON, and JSON-object events whose data field, when the
event is an on_state_update, is absent or itself a JSON object. -/
def cleanMsg : RuntimeMsg → Bool
  | .nonJSON _ => true
  | .json ev =>
      match ev with
      | .jobj fields =>
          !isEventType (jobjLookup fields "event_type") "on_state_update" ||
            (match jobjLookup fields "data" with
             | none => true
             | some (.jobj _) => true
             | some _ => false)
      | _ => false

/-- ProposalService.get_proposal_by_thread_id
(src/services/proposal_service.py lines 267-291): the reverse lookup of a
proposal by its runtime thread id. -/
def get_proposal_by_thread_id (st : DBState) (tid : String) : Option ProposalRow :=
  st.proposals.find? (fun p => p.threadId == tid)

/-- OrchestrationService.can_access_proposal
(src/services/orchestration_service.py lines 294-303): COUNT of matching
proposal_access rows is positive. -/
def can_access_proposal (st : DBState) (pid uid : String) : Bool :=
  st.proposalAccess.any (fun a => a.1 == pid && a.2.1 == uid)

/-- can_access_thread (src/api/routers/websockets.py lines 57-72),
parameterised by whether each of the two service calls raises (database or
attribute errors): the surrounding try converts any exception to false, a
missing proposal yields false, and otherwise the access check decides. -/
def can_access_thread (st : DBState) (uid tid : String)
    (lookupRaises accessRaises : Bool) : Bool :=
  if lookupRaises then false
  else
    match get_proposal_by_thread_id st tid with
    | none => false
    | some p => if accessRaises then false else can_access_proposal st p.pid uid

/-- Outcome of the access gate inside stream_refinement. -/
inductive WsGate where
  | closed1008
  | relay
  deriving DecidableEq

/-- The access gate of stream_refinement (src/api/routers/websockets.py lines
102-106): a failed check closes the client socket with code 1008 and
returns; only a passing check reaches the relay. -/
def stream_refinement_gate (accessOk : Bool) : WsGate :=
  if accessOk then .relay else .closed1008

/-- Modelled from the spec: OrchestrationService.update_proposal_files_from_stream
is called by update_proposal_with_files (src/api/routers/websockets.py lines
221-235) but no definition of it exists under src/ (the OrchestrationService
class lacks the method).  Spec 4.5: reverse-lookup the proposal by thread id,
fail with NotFound when none matches, and delegate to the same result-update
path used by direct polling (update_proposal_results, with the completed
status carrying the streamed files). -/
def update_proposal_files_from_stream (st : DBState) (tid : String)
    (files : List (String × PyVal)) (auditJson : String) (now : Nat) :
    Except String DBState :=
  match get_proposal_by_thread_id st tid with
  | none => .error "Proposal not found"
  | some p => .ok (update_proposal_results st p.pid "completed" auditJson (some files) now)

/-! Concrete database states used to evaluate the services on specific
inputs. -/

/-- A completed proposal row for the concrete states. -/
def rowCompleted : ProposalRow :=
  { pid := "p1"
    draftId := "d1"
    threadId := "refinement-p1"
    userPrompt := "add logging"
    contextFilePath := none
    contextSelection := none
    status := "completed"
    aiGeneratedContent := none
    generatedFiles := none
    createdByUserId := "u1"
    createdAt := 1
    completedAt := some 2
    resolvedByUserId := none
    resolvedAt := none
    resolution := none }

/-- A still-processing proposal row (with a generated-files snapshot). -/
def rowProcessing : ProposalRow :=
  { rowCompleted with
    status := "processing"
    generatedFiles := some [("a.py", .pyDict [("content", .pyStr "x")])]
    completedAt := none }

/-- The draft row shared by the concrete states. -/
def rowDraft1 : DraftRow := ⟨"d1", "w1", "u1"⟩

/-- A completed, accessible proposal over one unlocked workflow and draft. -/
def stCompleted : DBState :=
  { workflows := [⟨"w1", "Demo", false, "u1"⟩]
    drafts := [rowDraft1]
    proposals := [rowCompleted]
    proposalAccess := [("p1", "u1", 1)]
    draftFiles := [⟨"d1", "a.py", "original", .pyStr "markdown", 0, 0⟩] }

/-- Same shape but the proposal is still processing. -/
def stProcessing : DBState :=
  { stCompleted with proposals := [rowProcessing] }

/-- A workflow and draft with no proposals yet. -/
def stFresh : DBState :=
  { workflows := [⟨"w1", "Demo", false, "u1"⟩]
    drafts := [rowDraft1]
    proposals := []
    proposalAccess := []
    draftFiles := [] }

/-- The state right after a successful create_refinement_proposal on
stFresh. -/
def stAfterCreate : DBState :=
  match create_refinement_proposal stFresh "d1" "u1" "add logging" none none "p1" 0 with
  | .ok (st1, _, _) => st1
  | .error _ => stFresh

/-! Definitions supporting the analysis of apply_files_to_draft: the list of
entries the loop actually processes, the same upsert sequence rephrased over
processed triples, and the timestamp-free content view of the table. -/

/-- The (path, content, type) triples apply_files_to_draft actually
processes, in loop order: invalid entries are dropped, the rest are
normalised by processEntry. -/
def processedEntries (gen : List (String × PyVal)) : List (String × String × PyVal) :=
  gen.filterMap (fun e => (processEntry e.2).map (fun ct => (e.1, ct.1, ct.2)))

/-- The upsert sequence of one apply_files_to_draft pass, phrased over the
processed triples. -/
def upsertAll (rows : List DraftFileRow) (did : String)
    (ps : List (String × String × PyVal)) (now : Nat) : List DraftFileRow :=
  ps.foldl (fun r e => upsertDraftFile r did e.1 e.2.1 e.2.2 now) rows

/-- The upsert on the content view: same branching as upsertDraftFile but
without timestamps. -/
def viewUpsert (vs : List ((String × String) × String × PyVal))
    (did path c : String) (t : PyVal) : List ((String × String) × String × PyVal) :=
  if vs.any (fun e => e.1.1 == did && e.1.2 == path) then
    vs.map (fun e => if e.1.1 == did && e.1.2 == path then ((did, path), c, t) else e)
  else vs ++ [((did, path), c, t)]

/-- A whole pass of view-level upserts. -/
def viewUpsertAll (vs : List ((String × String) × String × PyVal)) (did : String)
    (ps : List (String × String × PyVal)) : List ((String × String) × String × PyVal) :=
  ps.foldl (fun acc e => viewUpsert acc did e.1 e.2.1 e.2.2) vs

/-- Content and type stored under a key in the view. -/
def lookupV (vs : List ((String × String) × String × PyVal)) (did path : String) :
    Option (String × PyVal) :=
  (vs.find? (fun e => e.1.1 == did && e.1.2 == path)).map (fun e => e.2)

/-! Claim C9. -/

/-- C9: cleanup_thread_data is a total function of the attempt outcome (the
source catches every exception), and it returns true exactly when the
runtime answered 200, 204 or 404; every other response status and every
transport-level exception yields false. -/
theorem cleanup_true_iff_success_status (tid : String) (a : HttpAttempt) :
    cleanup_thread_data tid a = true ↔
      ∃ s, a = .response s ∧ (s = 200 ∨ s = 204 ∨ s = 404) := by
  cases a with
  | response s =>
      simp only [cleanup_thread_data, Bool.or_eq_true, beq_iff_eq,
        HttpAttempt.response.injEq]
      constructor
      · intro h; exact ⟨s, rfl, by tauto⟩
      · rintro ⟨s2, rfl, h⟩; tauto
  | transportError m =>
      simp [cleanup_thread_data]

/-! Claim C6. -/

/-- C6: evaluating the guarded invoke path at the failing input.  Five
consecutive transport failures do open the breaker, a call 59 seconds after
opening fails fast without the network attempt, and a call 60 seconds after
opening is attempted again — that part of the claim holds.  But five
consecutive HTTP 500 responses open the breaker exactly the same way,
because invoke_job raises a plain Exception (never httpx.HTTPStatusError,
the only excluded class) for a non-2xx response, so HTTP error responses do
count toward opening the breaker, contradicting the claim and the source
comment saying to break only on connection issues, never on HTTP errors. -/
theorem breaker_counts_http_error_responses :
    runDeepagentsCalls (.closed 0)
        [(0, .transportError "econnrefused"), (1, .transportError "econnrefused"),
         (2, .transportError "econnrefused"), (3, .transportError "econnrefused"),
         (4, .transportError "econnrefused")] =
      (.opened 4,
        [.errored false, .errored false, .errored false, .errored false, .errored false]) ∧
    breakerCall (.opened 4) deepagentsFailMax deepagentsResetTimeout 63
        (invokeOutcome (.response 200)) = (.opened 4, .fastFail) ∧
    breakerCall (.opened 4) deepagentsFailMax deepagentsResetTimeout 64
        (invokeOutcome (.response 200)) = (.closed 0, .ok) ∧
    runDeepagentsCalls (.closed 0)
        [(0, .response 500), (1, .response 500), (2, .response 500),
         (3, .response 500), (4, .response 500)] =
      (.opened 4,
        [.errored false, .errored false, .errored false, .errored false, .errored false]) ∧
    invoke_job_exc (.response 500) =
      some (.generic "Deepagents-runtime invoke failed: 500") ∧
    excludedExc .httpStatusError = true := by
  exact ⟨rfl, rfl, rfl, rfl, rfl, rfl⟩

/-! Claim C3. -/

/-- C3: evaluating approve and reject at an accessible completed proposal.
Approval sets resolved_at and resolved_by_user_id but leaves status at
"approved" (not "resolved") and never writes the resolution column;
rejection behaves the same with "rejected".  So on every proposal reachable
through these operations the claimed invariant (resolved fields non-null iff
status = resolved, resolution in approved/rejected) fails: the repository
integration tests expect status "resolved" with a resolution value, which
ProposalService.resolve_proposal would write, but neither approve_proposal
nor reject_proposal calls it. -/
theorem approve_writes_approved_not_resolved :
    (approve_proposal stCompleted "p1" "u1" 5).toOption.isSome = true ∧
    (approveEffect stCompleted "p1" "u1" 5).proposals.map
        (fun p => (p.status, p.resolution, p.resolvedAt, p.resolvedByUserId)) =
      [("approved", none, some 5, some "u1")] ∧
    (rejectEffect stCompleted "p1" "u1" 7).proposals.map
        (fun p => (p.status, p.resolution, p.resolvedAt, p.resolvedByUserId)) =
      [("rejected", none, some 7, some "u1")] := by
  exact ⟨rfl, rfl, rfl⟩

/-! Claim C7. -/

/-- C7: evaluating the create path at the failing input (runtime invoke
fails).  The HTTP handler answers 202 with thread id "refinement-p1" before
any runtime call is made, because the invoke runs in a detached background
task; when that task then hits a transport error it marks the proposal
"failed" while the thread id keeps its "refinement-" prefix.  No
RuntimeUnavailable error ever reaches the caller (the 503 mapping in
src/api/routers/refinements.py is unreachable from this path), contradicting
the claim, the create_refinement_proposal docstring and spec Scenario E. -/
theorem create_returns_202_despite_invoke_failure :
    create_refinement_http stFresh "d1" "u1" "add logging" none none "p1" 0 =
      (202, some ("p1", "refinement-p1")) ∧
    stAfterCreate.proposals.map (fun p => (p.status, p.threadId)) =
      [("processing", "refinement-p1")] ∧
    (process_refinement_async stAfterCreate "p1" (.raised "connection refused") 3).proposals.map
        (fun p => (p.status, p.threadId, p.completedAt)) =
      [("failed", "refinement-p1", some 3)] := by
  exact ⟨rfl, rfl, rfl⟩

/-! Claim C5 helper lemmas. -/

theorem jobjLookup_nil (k : String) : jobjLookup [] k = none := rfl

theorem jobjLookup_none_of_any_false {dfs : List (String × Json)}
    (h : (dfs.any fun e => e.1 == "files") = false) : jobjLookup dfs "files" = none := by
  unfold jobjLookup
  have hfind : dfs.find? (fun e => e.1 == "files") = none := by
    rw [List.find?_eq_none]
    intro x hx hpx
    have : (dfs.any fun e => e.1 == "files") = true := List.any_eq_true.mpr ⟨x, hx, hpx⟩
    rw [this] at h
    cases h
  rw [hfind]
  rfl

theorem jobjLookup_isSome_of_any_true {dfs : List (String × Json)}
    (h : (dfs.any fun e => e.1 == "files") = true) :
    ∃ v, jobjLookup dfs "files" = some v := by
  obtain ⟨e, he, hpe⟩ := List.any_eq_true.mp h
  have hfind : (dfs.find? fun e => e.1 == "files").isSome := by
    rw [List.find?_isSome]
    exact ⟨e, he, hpe⟩
  obtain ⟨r, hr⟩ := Option.isSome_iff_exists.mp hfind
  refine ⟨r.2, ?_⟩
  unfold jobjLookup
  rw [hr]
  rfl

theorem relayStep_clean (acc : RelayAcc) (m : RuntimeMsg) (hm : cleanMsg m = true) :
    relayStep acc m = specRelayStep acc m := by
  cases m with
  | nonJSON s =>
      unfold relayStep specRelayStep
      cases acc.ended <;> rfl
  | json ev =>
      cases ev with
      | null => exact absurd hm (by simp [cleanMsg])
      | jbool b => exact absurd hm (by simp [cleanMsg])
      | jnum n => exact absurd hm (by simp [cleanMsg])
      | jstr s => exact absurd hm (by simp [cleanMsg])
      | jarr xs => exact absurd hm (by simp [cleanMsg])
      | jobj fields =>
          cases hend : acc.ended with
          | true => simp [relayStep, specRelayStep, hend]
          | false =>
              cases hevt : isEventType (jobjLookup fields "event_type") "on_state_update" with
              | false =>
                  simp [relayStep, specRelayStep, hend, hevt, extractFiles]
              | true =>
                  have hdata : jobjLookup fields "data" = none ∨
                      ∃ dfs, jobjLookup fields "data" = some (.jobj dfs) := by
                    simp only [cleanMsg, hevt, Bool.not_true, Bool.false_or] at hm
                    cases hd : jobjLookup fields "data" with
                    | none => exact Or.inl rfl
                    | some v =>
                        cases v with
                        | jobj dfs => exact Or.inr ⟨dfs, rfl⟩
                        | null => rw [hd] at hm; cases hm
                        | jbool b => rw [hd] at hm; cases hm
                        | jnum n => rw [hd] at hm; cases hm
                        | jstr s => rw [hd] at hm; cases hm
                        | jarr xs => rw [hd] at hm; cases hm
                  rcases hdata with hd | ⟨dfs, hd⟩
                  · simp [relayStep, specRelayStep, hend, hevt, hd, extractFiles,
                      pyContainsFiles, jobjLookup_nil]
                  · cases hany : (dfs.any fun e => e.1 == "files") with
                    | false =>
                        have hlk := jobjLookup_none_of_any_false hany
                        simp [relayStep, specRelayStep, hend, hevt, hd, hany, hlk,
                          extractFiles, pyContainsFiles]
                    | true =>
                        obtain ⟨v, hlk⟩ := jobjLookup_isSome_of_any_true hany
                        simp [relayStep, specRelayStep, hend, hevt, hd, hany, hlk,
                          extractFiles, pyContainsFiles, pyIndexFiles]

theorem relay_fold_clean (msgs : List RuntimeMsg) (acc : RelayAcc)
    (h : ∀ m ∈ msgs, cleanMsg m = true) :
    msgs.foldl relayStep acc = msgs.foldl specRelayStep acc := by
  induction msgs generalizing acc with
  | nil => rfl
  | cons m t ih =>
      simp only [List.foldl_cons]
      rw [relayStep_clean acc m (h m (by simp))]
      exact ih _ (fun x hx => h x (by simp [hx]))

theorem relayStep_nonJSON (acc : RelayAcc) (s : String) :
    relayStep acc (.nonJSON s) = acc := by
  unfold relayStep
  cases acc.ended <;> rfl

theorem relay_fold_filter (msgs : List RuntimeMsg) (acc : RelayAcc) :
    msgs.foldl relayStep acc = (msgs.filter RuntimeMsg.isJson).foldl relayStep acc := by
  induction msgs generalizing acc with
  | nil => rfl
  | cons m t ih =>
      cases m with
      | nonJSON s =>
          simp only [List.foldl_cons, List.filter_cons, RuntimeMsg.isJson,
            Bool.false_eq_true, if_false, relayStep_nonJSON]
          exact ih acc
      | json v =>
          simp only [List.foldl_cons, List.filter_cons, RuntimeMsg.isJson, if_pos]
          exact ih _

/-! Claim C5. -/

/-- C5 counterexample: a message that parses to a well-shaped event (it has
event_type and data fields) is not forwarded by the implemented relay: for
an on_state_update whose data is the number 7, the membership test
("files" in data) raises TypeError, the surrounding except-clause swallows
it, and the event is skipped — while the relay described by the claim would
forward it.  So the relay does not forward every parseable event. -/
theorem relay_drops_raising_parseable_event :
    (relayRun [RuntimeMsg.json (.jobj
        [("event_type", .jstr "on_state_update"), ("data", .jnum 7)])]).forwarded = [] ∧
    (specRelay [RuntimeMsg.json (.jobj
        [("event_type", .jstr "on_state_update"), ("data", .jnum 7)])]).forwarded =
      [.jobj [("event_type", .jstr "on_state_update"), ("data", .jnum 7)]] := by
  exact ⟨rfl, rfl⟩

/-- C5 amended: restricted to message sequences whose parseable messages are
JSON-object events with object-shaped (or absent) data whenever they are
on_state_update events, the implemented relay coincides exactly with the
described one: every parseable event is forwarded in arrival order, the
files field of the last on_state_update carrying one is kept as the
snapshot (later snapshots overwrite earlier ones), and the first end event
ends the relay and hands the snapshot over.  Unconditionally, non-JSON
messages are skipped without any effect on the relay outcome, and the
stream update path fails with NotFound exactly when no proposal carries the
thread id, otherwise delegating to update_proposal_results — the same
result-update path used by polling. -/
theorem relay_matches_spec_on_clean_streams (msgs : List RuntimeMsg)
    (hclean : ∀ m ∈ msgs, cleanMsg m = true) :
    relayRun msgs = specRelay msgs ∧
    (∀ ms : List RuntimeMsg, relayRun ms = relayRun (ms.filter RuntimeMsg.isJson)) ∧
    ∀ (st : DBState) (tid : String) (files : List (String × PyVal))
      (audit : String) (now : Nat),
      (get_proposal_by_thread_id st tid = none →
        update_proposal_files_from_stream st tid files audit now =
          .error "Proposal not found") ∧
      ∀ p, get_proposal_by_thread_id st tid = some p →
        update_proposal_files_from_stream st tid files audit now =
          .ok (update_proposal_results st p.pid "completed" audit (some files) now) := by
  refine ⟨relay_fold_clean msgs relayInit hclean, ?_, ?_⟩
  · intro ms
    exact relay_fold_filter ms relayInit
  · intro st tid files audit now
    constructor
    · intro h
      unfold update_proposal_files_from_stream
      rw [h]
    · intro p h
      unfold update_proposal_files_from_stream
      rw [h]

/-- C5 witness: the amended theorem applied to a concrete clean stream (a
skipped non-JSON message, two snapshots of which the second wins, an end
event) and to concrete stream updates on both lookup outcomes. -/
theorem relay_matches_spec_on_clean_streams_witness :
    relayRun
        [RuntimeMsg.nonJSON "garbage",
         RuntimeMsg.json (.jobj [("event_type", .jstr "on_state_update"),
           ("data", .jobj [("files", .jobj [("a.py", .jstr "old")])])]),
         RuntimeMsg.json (.jobj [("event_type", .jstr "on_state_update"),
           ("data", .jobj [("files", .jobj [("a.py", .jstr "new")])])]),
         RuntimeMsg.json (.jobj [("event_type", .jstr "end")])] =
      specRelay
        [RuntimeMsg.nonJSON "garbage",
         RuntimeMsg.json (.jobj [("event_type", .jstr "on_state_update"),
           ("data", .jobj [("files", .jobj [("a.py", .jstr "old")])])]),
         RuntimeMsg.json (.jobj [("event_type", .jstr "on_state_update"),
           ("data", .jobj [("files", .jobj [("a.py", .jstr "new")])])]),
         RuntimeMsg.json (.jobj [("event_type", .jstr "end")])] ∧
    update_proposal_files_from_stream stFresh "nope" [] "audit" 4 =
      .error "Proposal not found" ∧
    update_proposal_files_from_stream stCompleted "refinement-p1"
        [("a.py", .pyDict [("content", .pyStr "new")])] "audit" 4 =
      .ok (update_proposal_results stCompleted "p1" "completed" "audit"
        (some [("a.py", .pyDict [("content", .pyStr "new")])]) 4) :=
  ⟨(relay_matches_spec_on_clean_streams _ (by decide)).1,
   ((relay_matches_spec_on_clean_streams [] (by simp)).2.2 stFresh "nope" [] "audit" 4).1
     (by decide),
   ((relay_matches_spec_on_clean_streams [] (by simp)).2.2 stCompleted "refinement-p1"
       [("a.py", .pyDict [("content", .pyStr "new")])] "audit" 4).2 rowCompleted
     (by decide)⟩

/-! Claim C2 helper lemmas. -/

theorem processedEntries_cons_none (e : String × PyVal) (t : List (String × PyVal))
    (hpe : processEntry e.2 = none) :
    processedEntries (e :: t) = processedEntries t := by
  simp [processedEntries, List.filterMap_cons, hpe]

theorem processedEntries_cons_some (e : String × PyVal) (t : List (String × PyVal))
    (c : String) (ty : PyVal) (hpe : processEntry e.2 = some (c, ty)) :
    processedEntries (e :: t) = (e.1, c, ty) :: processedEntries t := by
  simp [processedEntries, List.filterMap_cons, hpe]

theorem applyFilesPass_go (did : String) (now : Nat) (gen : List (String × PyVal)) :
    ∀ (rows : List DraftFileRow) (n : Nat),
      gen.foldl (applyFileStep did now) (rows, n) =
        (upsertAll rows did (processedEntries gen) now,
         n + (processedEntries gen).length) := by
  induction gen with
  | nil => intro rows n; simp [processedEntries, upsertAll]
  | cons e t ih =>
      intro rows n
      cases hpe : processEntry e.2 with
      | none =>
          simp only [List.foldl_cons, applyFileStep, hpe]
          rw [ih rows n, processedEntries_cons_none e t hpe]
      | some ct =>
          obtain ⟨c, ty⟩ := ct
          simp only [List.foldl_cons, applyFileStep, hpe]
          rw [ih _ (n + 1), processedEntries_cons_some e t c ty hpe]
          simp only [Prod.mk.injEq, List.length_cons]
          constructor
          · rfl
          · omega

theorem applyFilesPass_eq (rows : List DraftFileRow) (did : String)
    (gen : List (String × PyVal)) (now : Nat) :
    applyFilesPass rows did gen now =
      (upsertAll rows did (processedEntries gen) now, (processedEntries gen).length) := by
  unfold applyFilesPass
  rw [applyFilesPass_go]
  simp

theorem processedEntries_length (gen : List (String × PyVal)) :
    (processedEntries gen).length =
      (gen.filter fun e => (processEntry e.2).isSome).length := by
  induction gen with
  | nil => rfl
  | cons e t ih =>
      cases hpe : processEntry e.2 with
      | none =>
          rw [processedEntries_cons_none e t hpe, List.filter_cons]
          simp [hpe, ih]
      | some ct =>
          rw [processedEntries_cons_some e t ct.1 ct.2 (by rw [hpe]), List.filter_cons]
          simp [hpe, ih]

theorem applyFilesPass_skip (rows : List DraftFileRow) (did : String) (now : Nat)
    (pre post : List (String × PyVal)) (p : String) (v : PyVal)
    (hv : processEntry v = none) :
    applyFilesPass rows did (pre ++ (p, v) :: post) now =
      applyFilesPass rows did (pre ++ post) now := by
  unfold applyFilesPass
  rw [List.foldl_append, List.foldl_append, List.foldl_cons]
  simp [applyFileStep, hv]

theorem dfView_any (rows : List DraftFileRow) (did path : String) :
    ((dfView rows).any fun e => e.1.1 == did && e.1.2 == path) =
      rows.any fun r => r.draftId == did && r.filePath == path := by
  induction rows with
  | nil => rfl
  | cons r t ih =>
      simp only [dfView, List.map_cons, List.any_cons] at ih ⊢
      rw [ih]

theorem dfView_upsert (rows : List DraftFileRow) (did path c : String) (t : PyVal)
    (now : Nat) :
    dfView (upsertDraftFile rows did path c t now) = viewUpsert (dfView rows) did path c t := by
  unfold upsertDraftFile viewUpsert
  rw [dfView_any]
  by_cases hany : (rows.any fun r => r.draftId == did && r.filePath == path) = true
  · rw [if_pos hany, if_pos hany]
    unfold dfView
    rw [List.map_map, List.map_map]
    apply List.map_congr_left
    intro r _
    by_cases hr : (r.draftId == did && r.filePath == path) = true
    · rw [Bool.and_eq_true, beq_iff_eq, beq_iff_eq] at hr
      simp [Function.comp, hr.1, hr.2]
    · have hr2 : (r.draftId == did && r.filePath == path) = false :=
        Bool.not_eq_true _ ▸ eq_false_of_ne_true hr
      simp [Function.comp, hr2]
  · rw [if_neg hany, if_neg hany]
    unfold dfView
    rw [List.map_append]
    rfl

theorem dfView_upsertAll (did : String) (ps : List (String × String × PyVal)) (now : Nat) :
    ∀ rows : List DraftFileRow,
      dfView (upsertAll rows did ps now) = viewUpsertAll (dfView rows) did ps := by
  induction ps with
  | nil => intro rows; rfl
  | cons e t ih =>
      intro rows
      show dfView (upsertAll (upsertDraftFile rows did e.1 e.2.1 e.2.2 now) did t now) =
        viewUpsertAll (viewUpsert (dfView rows) did e.1 e.2.1 e.2.2) did t
      rw [ih, dfView_upsert]

theorem dfLookup_view (rows : List DraftFileRow) (did path : String) :
    (dfLookup rows did path).map (fun r => (r.content, r.fileType)) =
      lookupV (dfView rows) did path := by
  induction rows with
  | nil => rfl
  | cons r t ih =>
      by_cases hr : (r.draftId == did && r.filePath == path) = true
      · unfold dfLookup lookupV dfView
        rw [List.map_cons,
          @List.find?_cons_of_pos _ (fun r => r.draftId == did && r.filePath == path)
            r t hr,
          @List.find?_cons_of_pos _ (fun e => e.1.1 == did && e.1.2 == path)
            ((r.draftId, r.filePath), r.content, r.fileType)
            (t.map fun r => ((r.draftId, r.filePath), r.content, r.fileType)) hr]
        rfl
      · unfold dfLookup lookupV dfView at ih ⊢
        rw [List.map_cons,
          @List.find?_cons_of_neg _ (fun r => r.draftId == did && r.filePath == path)
            r t hr,
          @List.find?_cons_of_neg _ (fun e => e.1.1 == did && e.1.2 == path)
            ((r.draftId, r.filePath), r.content, r.fileType)
            (t.map fun r => ((r.draftId, r.filePath), r.content, r.fileType)) hr]
        exact ih

theorem find?_cons_pos {α : Type _} (p : α → Bool) (a : α) (l : List α)
    (h : p a = true) : (a :: l).find? p = some a := List.find?_cons_of_pos l h

theorem find?_cons_neg {α : Type _} (p : α → Bool) (a : α) (l : List α)
    (h : ¬p a = true) : (a :: l).find? p = l.find? p := List.find?_cons_of_neg l h

theorem find_after_overwrite (did path c : String) (t : PyVal) :
    ∀ vs : List ((String × String) × String × PyVal),
      (vs.any fun e => e.1.1 == did && e.1.2 == path) = true →
      ((vs.map fun e =>
          if e.1.1 == did && e.1.2 == path then ((did, path), c, t) else e).find?
        fun e => e.1.1 == did && e.1.2 == path) = some ((did, path), c, t) := by
  intro vs
  induction vs with
  | nil => intro hany; cases hany
  | cons w t2 ih =>
      intro hany
      by_cases hw : (w.1.1 == did && w.1.2 == path) = true
      · rw [List.map_cons, if_pos hw,
          find?_cons_pos (fun e => e.1.1 == did && e.1.2 == path) ((did, path), c, t) _
            (by simp)]
      · have hany2 : (t2.any fun e => e.1.1 == did && e.1.2 == path) = true := by
          rcases List.any_eq_true.mp hany with ⟨x, hx, hpx⟩
          rcases List.mem_cons.mp hx with heq | hx2
          · exact absurd (heq ▸ hpx) hw
          · exact List.any_eq_true.mpr ⟨x, hx2, hpx⟩
        rw [List.map_cons, if_neg hw,
          find?_cons_neg (fun e => e.1.1 == did && e.1.2 == path) w _ hw]
        exact ih hany2

theorem any_false_find?_none (vs : List ((String × String) × String × PyVal))
    (did path : String)
    (hany : ¬(vs.any fun e => e.1.1 == did && e.1.2 == path) = true) :
    (vs.find? fun e => e.1.1 == did && e.1.2 == path) = none := by
  rw [List.find?_eq_none]
  intro x hx hpx
  exact hany (List.any_eq_true.mpr ⟨x, hx, hpx⟩)

theorem lookupV_viewUpsert_self (vs : List ((String × String) × String × PyVal))
    (did path c : String) (t : PyVal) :
    lookupV (viewUpsert vs did path c t) did path = some (c, t) := by
  unfold viewUpsert lookupV
  by_cases hany : (vs.any fun e => e.1.1 == did && e.1.2 == path) = true
  · rw [if_pos hany, find_after_overwrite did path c t vs hany]
    rfl
  · rw [if_neg hany, List.find?_append, any_false_find?_none vs did path hany]
    simp

theorem find?_overwrite_other (did path c : String) (t : PyVal) (d2 q : String)
    (hnew : ((did == d2 : Bool) && (path == q)) = false) :
    ∀ vs : List ((String × String) × String × PyVal),
      ((vs.map fun e =>
          if e.1.1 == did && e.1.2 == path then ((did, path), c, t) else e).find?
        fun e => e.1.1 == d2 && e.1.2 == q) =
        vs.find? fun e => e.1.1 == d2 && e.1.2 == q := by
  intro vs
  induction vs with
  | nil => rfl
  | cons w t2 ih =>
      rw [List.map_cons]
      by_cases hw : (w.1.1 == did && w.1.2 == path) = true
      · have hkey : w.1 = (did, path) := by
          rw [Bool.and_eq_true, beq_iff_eq, beq_iff_eq] at hw
          exact Prod.ext hw.1 hw.2
        have hwq : ¬(w.1.1 == d2 && w.1.2 == q) = true := by
          rw [hkey]
          simp [hnew]
        rw [if_pos hw,
          find?_cons_neg (fun e => e.1.1 == d2 && e.1.2 == q) ((did, path), c, t) _
            (by simp [hnew]),
          find?_cons_neg (fun e => e.1.1 == d2 && e.1.2 == q) w _ hwq]
        exact ih
      · rw [if_neg hw]
        by_cases hwq : (w.1.1 == d2 && w.1.2 == q) = true
        · rw [find?_cons_pos (fun e => e.1.1 == d2 && e.1.2 == q) w _ hwq,
            find?_cons_pos (fun e => e.1.1 == d2 && e.1.2 == q) w _ hwq]
        · rw [find?_cons_neg (fun e => e.1.1 == d2 && e.1.2 == q) w _ hwq,
            find?_cons_neg (fun e => e.1.1 == d2 && e.1.2 == q) w _ hwq]
          exact ih

theorem lookupV_viewUpsert_other (vs : List ((String × String) × String × PyVal))
    (did path c : String) (t : PyVal) (d2 q : String)
    (hne : ¬(d2 = did ∧ q = path)) :
    lookupV (viewUpsert vs did path c t) d2 q = lookupV vs d2 q := by
  have hnew : ((did == d2 : Bool) && (path == q)) = false := by
    by_cases h1 : did = d2
    · by_cases h2 : path = q
      · exact absurd ⟨h1.symm, h2.symm⟩ hne
      · simp [beq_eq_false_iff_ne.mpr h2]
    · simp [beq_eq_false_iff_ne.mpr h1]
  unfold viewUpsert lookupV
  by_cases hany : (vs.any fun e => e.1.1 == did && e.1.2 == path) = true
  · rw [if_pos hany, find?_overwrite_other did path c t d2 q hnew vs]
  · rw [if_neg hany, List.find?_append]
    have h2 : (([((did, path), c, t)].find? fun e => e.1.1 == d2 && e.1.2 == q)) = none :=
      find?_cons_neg (fun e => e.1.1 == d2 && e.1.2 == q) ((did, path), c, t) []
        (by simp [hnew])
    rw [h2]
    simp

theorem lookupV_viewUpsertAll_other (did : String) (ps : List (String × String × PyVal))
    (d2 q : String) :
    ∀ vs, (∀ e ∈ ps, ¬(d2 = did ∧ q = e.1)) →
      lookupV (viewUpsertAll vs did ps) d2 q = lookupV vs d2 q := by
  induction ps with
  | nil => intro vs _; rfl
  | cons e t ih =>
      intro vs h
      show lookupV (viewUpsertAll (viewUpsert vs did e.1 e.2.1 e.2.2) did t) d2 q = _
      rw [ih _ (fun x hx => h x (List.mem_cons_of_mem _ hx)),
        lookupV_viewUpsert_other _ _ _ _ _ _ _ (h e (List.mem_cons_self _ _))]

theorem lookupV_viewUpsertAll_mem (did : String) (ps : List (String × String × PyVal))
    (p c : String) (t : PyVal) :
    ∀ vs, (ps.map fun e => e.1).Nodup → (p, c, t) ∈ ps →
      lookupV (viewUpsertAll vs did ps) did p = some (c, t) := by
  induction ps with
  | nil => intro vs _ hmem; cases hmem
  | cons e t2 ih =>
      intro vs hnd hmem
      show lookupV (viewUpsertAll (viewUpsert vs did e.1 e.2.1 e.2.2) did t2) did p = _
      rcases List.mem_cons.mp hmem with heq | hmem2
      · have hp : ∀ x ∈ t2, ¬(did = did ∧ p = x.1) := by
          intro x hx hc
          have hnotin := (List.nodup_cons.mp hnd).1
          have hmm : e.1 ∈ t2.map (fun e => e.1) := by
            have he1 : e.1 = p := by rw [← heq]
            rw [he1, hc.2]
            exact List.mem_map_of_mem _ hx
          exact hnotin hmm
        rw [lookupV_viewUpsertAll_other did t2 did p _ hp, ← heq,
          lookupV_viewUpsert_self]
      · exact ih _ (List.nodup_cons.mp hnd).2 hmem2

theorem overwrite_map_id (did path c : String) (t : PyVal) :
    ∀ vs : List ((String × String) × String × PyVal),
      (vs.map fun e => e.1).Nodup → lookupV vs did path = some (c, t) →
      (vs.map fun e =>
        if e.1.1 == did && e.1.2 == path then ((did, path), c, t) else e) = vs := by
  intro vs
  induction vs with
  | nil => intro _ _; rfl
  | cons w t2 ih =>
      intro hnd hlk
      rw [List.map_cons]
      by_cases hw : (w.1.1 == did && w.1.2 == path) = true
      · have hkey : w.1 = (did, path) := by
          rw [Bool.and_eq_true, beq_iff_eq, beq_iff_eq] at hw
          exact Prod.ext hw.1 hw.2
        have hval : w.2 = (c, t) := by
          unfold lookupV at hlk
          rw [find?_cons_pos (fun e => e.1.1 == did && e.1.2 == path) w t2 hw] at hlk
          simpa using hlk
        have hw2 : ((did, path), c, t) = w := by
          rw [← hkey, ← hval]
        rw [if_pos hw]
        have htl : ∀ e ∈ t2, (if e.1.1 == did && e.1.2 == path then ((did, path), c, t)
            else e) = e := by
          intro e he
          by_cases hpe : (e.1.1 == did && e.1.2 == path) = true
          · have hek : e.1 = (did, path) := by
              rw [Bool.and_eq_true, beq_iff_eq, beq_iff_eq] at hpe
              exact Prod.ext hpe.1 hpe.2
            have hnotin := (List.nodup_cons.mp hnd).1
            have hmm : w.1 ∈ t2.map (fun e => e.1) := by
              rw [hkey, ← hek]
              exact List.mem_map_of_mem _ he
            exact absurd hmm hnotin
          · rw [if_neg hpe]
        rw [List.map_congr_left htl, hw2]
        simp
      · have hlk2 : lookupV t2 did path = some (c, t) := by
          unfold lookupV at hlk ⊢
          rw [find?_cons_neg (fun e => e.1.1 == did && e.1.2 == path) w t2 hw] at hlk
          exact hlk
        rw [if_neg hw, ih (List.nodup_cons.mp hnd).2 hlk2]

theorem viewUpsert_noop (vs : List ((String × String) × String × PyVal))
    (did path c : String) (t : PyVal)
    (hnd : (vs.map fun e => e.1).Nodup)
    (hlk : lookupV vs did path = some (c, t)) :
    viewUpsert vs did path c t = vs := by
  have hany : (vs.any fun e => e.1.1 == did && e.1.2 == path) = true := by
    unfold lookupV at hlk
    cases hfind : vs.find? (fun e => e.1.1 == did && e.1.2 == path) with
    | none => rw [hfind] at hlk; cases hlk
    | some w =>
        exact List.any_eq_true.mpr
          ⟨w, @List.mem_of_find?_eq_some _ (fun e => e.1.1 == did && e.1.2 == path) w vs
            hfind,
           @List.find?_some _ (fun e => e.1.1 == did && e.1.2 == path) w vs hfind⟩
  unfold viewUpsert
  rw [if_pos hany]
  exact overwrite_map_id did path c t vs hnd hlk

theorem viewUpsertAll_noop (did : String) (ps : List (String × String × PyVal)) :
    ∀ vs, (vs.map fun e => e.1).Nodup →
      (∀ e ∈ ps, lookupV vs did e.1 = some e.2) →
      viewUpsertAll vs did ps = vs := by
  induction ps with
  | nil => intro vs _ _; rfl
  | cons e t ih =>
      intro vs hnd hall
      have h1 : viewUpsert vs did e.1 e.2.1 e.2.2 = vs := by
        apply viewUpsert_noop vs did e.1 e.2.1 e.2.2 hnd
        rw [Prod.mk.eta]
        exact hall e (List.mem_cons_self _ _)
      show viewUpsertAll (viewUpsert vs did e.1 e.2.1 e.2.2) did t = vs
      rw [h1]
      exact ih vs hnd (fun x hx => hall x (List.mem_cons_of_mem _ hx))

theorem keys_viewUpsert (vs : List ((String × String) × String × PyVal))
    (did path c : String) (t : PyVal)
    (hnd : (vs.map fun e => e.1).Nodup) :
    ((viewUpsert vs did path c t).map fun e => e.1).Nodup := by
  unfold viewUpsert
  by_cases hany : (vs.any fun e => e.1.1 == did && e.1.2 == path) = true
  · rw [if_pos hany]
    have hkeys : ((vs.map fun e =>
        if e.1.1 == did && e.1.2 == path then ((did, path), c, t) else e).map
          fun e => e.1) = vs.map fun e => e.1 := by
      rw [List.map_map]
      apply List.map_congr_left
      intro e _
      by_cases hpe : (e.1.1 == did && e.1.2 == path) = true
      · have : e.1 = (did, path) := by
          rw [Bool.and_eq_true, beq_iff_eq, beq_iff_eq] at hpe
          exact Prod.ext hpe.1 hpe.2
        simp [Function.comp, hpe, this]
      · have hpe2 : (e.1.1 == did && e.1.2 == path) = false :=
          Bool.not_eq_true _ ▸ eq_false_of_ne_true hpe
        simp [Function.comp, hpe2]
    rw [hkeys]
    exact hnd
  · rw [if_neg hany, List.map_append]
    rw [List.nodup_append]
    refine ⟨hnd, List.nodup_singleton _, ?_⟩
    intro k hk hk2
    simp only [List.map_cons, List.map_nil, List.mem_singleton] at hk2
    rcases List.mem_map.mp hk with ⟨e, he, hke⟩
    apply hany
    apply List.any_eq_true.mpr
    refine ⟨e, he, ?_⟩
    rw [hke, hk2]
    simp

theorem keys_viewUpsertAll (did : String) (ps : List (String × String × PyVal)) :
    ∀ vs, (vs.map fun e => e.1).Nodup →
      ((viewUpsertAll vs did ps).map fun e => e.1).Nodup := by
  induction ps with
  | nil => intro vs hnd; exact hnd
  | cons e t ih =>
      intro vs hnd
      exact ih _ (keys_viewUpsert vs did e.1 e.2.1 e.2.2 hnd)

theorem viewUpsertAll_idem (vs : List ((String × String) × String × PyVal))
    (did : String) (ps : List (String × String × PyVal))
    (hndv : (vs.map fun e => e.1).Nodup)
    (hndp : (ps.map fun e => e.1).Nodup) :
    viewUpsertAll (viewUpsertAll vs did ps) did ps = viewUpsertAll vs did ps := by
  apply viewUpsertAll_noop
  · exact keys_viewUpsertAll did ps vs hndv
  · intro e he
    have := lookupV_viewUpsertAll_mem did ps e.1 e.2.1 e.2.2 vs hndp
      (by rw [Prod.mk.eta]; exact he)
    rw [this, Prod.mk.eta]

theorem processedEntries_paths_sublist (gen : List (String × PyVal)) :
    List.Sublist ((processedEntries gen).map fun e => e.1) (gen.map Prod.fst) := by
  induction gen with
  | nil => exact List.Sublist.refl _
  | cons e t ih =>
      cases hpe : processEntry e.2 with
      | none =>
          simp only [processedEntries, List.filterMap_cons, hpe, List.map_cons]
          exact List.Sublist.cons _ ih
      | some ct =>
          simp only [processedEntries, List.filterMap_cons, hpe, Option.map_some,
            List.map_cons]
          exact List.Sublist.cons₂ _ ih

theorem dfView_keys (rows : List DraftFileRow) :
    ((dfView rows).map fun e => e.1) = dfKeys rows := by
  unfold dfView dfKeys
  rw [List.map_map]
  rfl

theorem processedEntries_mem (gen : List (String × PyVal)) (p : String) (v : PyVal)
    (c : String) (ty : PyVal) (hmem : (p, v) ∈ gen)
    (hpv : processEntry v = some (c, ty)) : (p, c, ty) ∈ processedEntries gen := by
  unfold processedEntries
  apply List.mem_filterMap.mpr
  exact ⟨(p, v), hmem, by rw [hpv]; rfl⟩

/-! Claim C2. -/

/-- C2: the apply-files pass of DraftService.apply_files_to_draft (shared
with the orchestration variant) behaves as claimed.  On a table whose
(draft_id, file_path) unique index holds and a files mapping (whose keys,
coming from a Python dict, are distinct): running the service wrapper on an
existing draft is exactly the pass; the returned count is the number of
processed entries; applying the same mapping twice leaves the content view
of the table identical and returns the same count; entries that are not
dicts or lack a content key are skipped with no effect; list-valued content
joins with newlines; and every processed path ends up stored under its
(draft_id, file_path) key with exactly the normalised content and type. -/
theorem apply_files_filtered_idempotent_upsert (rows : List DraftFileRow) (did : String)
    (gen : List (String × PyVal)) (now1 now2 : Nat)
    (hrows : (dfKeys rows).Nodup) (hgen : (gen.map Prod.fst).Nodup) :
    (∀ g2 : List (String × PyVal),
        apply_files_to_draft true rows did g2 now1 =
          .ok (applyFilesPass rows did g2 now1)) ∧
    (applyFilesPass rows did gen now1).2 =
      (gen.filter fun e => (processEntry e.2).isSome).length ∧
    dfView (applyFilesPass (applyFilesPass rows did gen now1).1 did gen now2).1 =
      dfView (applyFilesPass rows did gen now1).1 ∧
    (applyFilesPass (applyFilesPass rows did gen now1).1 did gen now2).2 =
      (applyFilesPass rows did gen now1).2 ∧
    (∀ (pre post : List (String × PyVal)) (p : String) (v : PyVal),
        processEntry v = none →
        applyFilesPass rows did (pre ++ (p, v) :: post) now1 =
          applyFilesPass rows did (pre ++ post) now1) ∧
    (∀ v : PyVal, PyVal.isDict v = false → processEntry v = none) ∧
    (∀ es : List (String × PyVal), dictLookup es "content" = none →
        processEntry (.pyDict es) = none) ∧
    (∀ xs : List PyVal, normalizeContent (.pyList xs) =
        String.intercalate "\n" (xs.map PyVal.pyStrOf)) ∧
    ∀ (p : String) (v : PyVal) (c : String) (ty : PyVal),
      (p, v) ∈ gen → processEntry v = some (c, ty) →
      (dfLookup (applyFilesPass rows did gen now1).1 did p).map
        (fun r => (r.content, r.fileType)) = some (c, ty) := by
  have hndp : ((processedEntries gen).map fun e => e.1).Nodup :=
    hgen.sublist (processedEntries_paths_sublist gen)
  have hndv : ((dfView rows).map fun e => e.1).Nodup := by
    rw [dfView_keys]
    exact hrows
  refine ⟨?_, ?_, ?_, ?_, ?_, ?_, ?_, ?_, ?_⟩
  · intro g2
    cases g2 with
    | nil => rfl
    | cons e t => rfl
  · rw [applyFilesPass_eq]
    exact processedEntries_length gen
  · rw [applyFilesPass_eq rows did gen now1]
    rw [applyFilesPass_eq _ did gen now2]
    show dfView (upsertAll (upsertAll rows did (processedEntries gen) now1) did
        (processedEntries gen) now2) = _
    rw [dfView_upsertAll, dfView_upsertAll]
    exact viewUpsertAll_idem (dfView rows) did (processedEntries gen) hndv hndp
  · rw [applyFilesPass_eq rows did gen now1, applyFilesPass_eq _ did gen now2]
  · exact fun pre post p v hv => applyFilesPass_skip rows did now1 pre post p v hv
  · intro v hv
    cases v with
    | pyDict es => exact absurd hv (by simp [PyVal.isDict])
    | pyNone => rfl
    | pyBool b => rfl
    | pyInt n => rfl
    | pyStr s => rfl
    | pyList xs => rfl
  · intro es h
    simp [processEntry, h]
  · intro xs
    rfl
  · intro p v c ty hmem hpv
    rw [applyFilesPass_eq]
    show (dfLookup (upsertAll rows did (processedEntries gen) now1) did p).map
      (fun r => (r.content, r.fileType)) = some (c, ty)
    rw [dfLookup_view, dfView_upsertAll]
    exact lookupV_viewUpsertAll_mem did (processedEntries gen) p c ty (dfView rows) hndp
      (processedEntries_mem gen p v c ty hmem hpv)

/-- C2 witness: the theorem applied to a concrete mapping with one valid
entry (list content) and one skipped non-dict entry, on an empty table. -/
theorem apply_files_filtered_idempotent_upsert_witness :
    (applyFilesPass []
        "d1" [("a.py", .pyDict [("content", .pyList [.pyStr "l1", .pyStr "l2"])]),
          ("b.py", .pyStr "not a dict")] 1).2 =
      (([("a.py", PyVal.pyDict [("content", .pyList [.pyStr "l1", .pyStr "l2"])]),
          ("b.py", PyVal.pyStr "not a dict")]).filter
        fun e => (processEntry e.2).isSome).length ∧
    dfView (applyFilesPass (applyFilesPass []
        "d1" [("a.py", .pyDict [("content", .pyList [.pyStr "l1", .pyStr "l2"])]),
          ("b.py", .pyStr "not a dict")] 1).1
        "d1" [("a.py", .pyDict [("content", .pyList [.pyStr "l1", .pyStr "l2"])]),
          ("b.py", .pyStr "not a dict")] 2).1 =
      dfView (applyFilesPass []
        "d1" [("a.py", .pyDict [("content", .pyList [.pyStr "l1", .pyStr "l2"])]),
          ("b.py", .pyStr "not a dict")] 1).1 ∧
    (dfLookup (applyFilesPass []
        "d1" [("a.py", .pyDict [("content", .pyList [.pyStr "l1", .pyStr "l2"])]),
          ("b.py", .pyStr "not a dict")] 1).1 "d1" "a.py").map
        (fun r => (r.content, r.fileType)) =
      some ("l1\nl2", .pyStr "markdown") :=
  ⟨(apply_files_filtered_idempotent_upsert [] "d1" _ 1 2 (by decide) (by decide)).2.1,
   (apply_files_filtered_idempotent_upsert [] "d1" _ 1 2 (by decide) (by decide)).2.2.1,
   (apply_files_filtered_idempotent_upsert [] "d1" _ 1 2 (by decide)
       (by decide)).2.2.2.2.2.2.2.2 "a.py"
     (.pyDict [("content", .pyList [.pyStr "l1", .pyStr "l2"])]) "l1\nl2"
     (.pyStr "markdown") (by decide) (by decide)⟩

/-! Claim C1. -/

/-- C1: for every state, every proposal the acting user can reach through
the access-checked lookup, and every instant, if the proposal status is not
"completed" then approve_proposal raises exactly the InvalidState error
("Proposal is not ready for approval") and the rolled-back transaction
leaves the whole database state — in particular every
draft_specification_files row — unchanged. -/
theorem approve_nonCompleted_invalid_state (st : DBState) (pid uid : String)
    (now : Nat) (p : ProposalRow) (d : DraftRow)
    (hfound : approveLookup st pid uid = some (p, d))
    (hstatus : p.status ≠ "completed") :
    approve_proposal st pid uid now = .error "Proposal is not ready for approval" ∧
    approveEffect st pid uid now = st := by
  have h1 : approve_proposal st pid uid now =
      .error "Proposal is not ready for approval" := by
    unfold approve_proposal
    rw [hfound]
    simp [hstatus]
  refine ⟨h1, ?_⟩
  unfold approveEffect
  rw [h1]

/-- C1 witness: the theorem applied to the concrete processing proposal. -/
theorem approve_nonCompleted_invalid_state_witness :
    approve_proposal stProcessing "p1" "u1" 5 =
      .error "Proposal is not ready for approval" ∧
    approveEffect stProcessing "p1" "u1" 5 = stProcessing :=
  approve_nonCompleted_invalid_state stProcessing "p1" "u1" 5 rowProcessing rowDraft1
    (by decide) (by decide)

/-! Claim C8. -/

/-- C8: for every state, proposal id, user and instant, reject_proposal
leaves the draft file table, the drafts, the workflows and the access rows
untouched, and every proposal row other than the target survives unchanged
— whatever the target status or generated_files snapshot is. -/
theorem reject_never_touches_draft (st : DBState) (pid uid : String) (now : Nat) :
    (rejectEffect st pid uid now).draftFiles = st.draftFiles ∧
    (rejectEffect st pid uid now).drafts = st.drafts ∧
    (rejectEffect st pid uid now).workflows = st.workflows ∧
    (rejectEffect st pid uid now).proposalAccess = st.proposalAccess ∧
    ∀ r ∈ st.proposals, r.pid ≠ pid → r ∈ (rejectEffect st pid uid now).proposals := by
  by_cases hc : ((st.proposals.any fun p => p.pid == pid) &&
      st.proposalAccess.any fun a => a.1 == pid && a.2.1 == uid) = true
  · have he : rejectEffect st pid uid now =
        mapProposal st pid (fun q =>
          { q with status := "rejected", resolvedByUserId := some uid,
                   resolvedAt := some now }) := by
      unfold rejectEffect reject_proposal
      rw [if_pos hc]
    rw [he]
    refine ⟨rfl, rfl, rfl, rfl, ?_⟩
    intro r hr hne
    have hb : (r.pid == pid) = false := beq_eq_false_iff_ne.mpr hne
    unfold mapProposal
    simp only [List.mem_map]
    exact ⟨r, hr, by simp [hb]⟩
  · have he : rejectEffect st pid uid now = st := by
      unfold rejectEffect reject_proposal
      rw [if_neg hc]
    rw [he]
    exact ⟨rfl, rfl, rfl, rfl, fun r hr _ => hr⟩

/-- C8 witness: the frame theorem applied to the concrete completed
proposal, instantiating the per-row clause on a second, untouched row. -/
theorem reject_never_touches_draft_witness :
    (rejectEffect stCompleted "p2" "u1" 9).draftFiles = stCompleted.draftFiles ∧
    rowCompleted ∈ (rejectEffect stCompleted "p2" "u1" 9).proposals :=
  ⟨(reject_never_touches_draft stCompleted "p2" "u1" 9).1,
   (reject_never_touches_draft stCompleted "p2" "u1" 9).2.2.2.2 rowCompleted
     (by decide) (by decide)⟩

/-! Claim C4. -/

/-- C4 counterexample: update_proposal_results carries no guard on the
current status, so a proposal already in the terminal status "completed" is
moved back to the non-terminal "processing" (its completed_at is even
cleared), refuting the never-regresses half of the claim. -/
theorem update_results_regresses_completed :
    stCompleted.proposals.map (fun p => (p.status, p.completedAt)) =
      [("completed", some 2)] ∧
    (update_proposal_results stCompleted "p1" "processing" "audit" none 9).proposals.map
        (fun p => (p.status, p.completedAt)) = [("processing", none)] := by
  exact ⟨rfl, rfl⟩

/-- C4 amended: update_proposal_results writes completed_at = now exactly
when the new status is "completed" or "failed" (and clears it to NULL
otherwise), writes the new status to the addressed row unconditionally —
whatever terminal or non-terminal status the row held before — and leaves
every other proposal row unchanged. -/
theorem update_results_sets_completedAt (st : DBState) (pid status auditJson : String)
    (gen : Option (List (String × PyVal))) (now : Nat) :
    (∀ r ∈ (update_proposal_results st pid status auditJson gen now).proposals,
        r.pid = pid →
          r.status = status ∧
          r.completedAt =
            if status = "completed" ∨ status = "failed" then some now else none) ∧
    ∀ r ∈ st.proposals, r.pid ≠ pid →
        r ∈ (update_proposal_results st pid status auditJson gen now).proposals := by
  have hbridge :
      (if (status == "completed" || status == "failed") = true then some now else none) =
        if status = "completed" ∨ status = "failed" then some now else none := by
    by_cases h : status = "completed" ∨ status = "failed"
    · have hb : (status == "completed" || status == "failed") = true := by
        rcases h with h | h <;> simp [h]
      rw [if_pos hb, if_pos h]
    · push_neg at h
      have h1 : (status == "completed") = false := beq_eq_false_iff_ne.mpr h.1
      have h2 : (status == "failed") = false := beq_eq_false_iff_ne.mpr h.2
      have hor : ¬(status = "completed" ∨ status = "failed") := by
        rintro (hx | hx)
        · exact h.1 hx
        · exact h.2 hx
      rw [h1, h2, if_neg hor]
      simp
  constructor
  · intro r hr hpid
    unfold update_proposal_results mapProposal at hr
    simp only [List.mem_map] at hr
    obtain ⟨q, _, hmap⟩ := hr
    by_cases hb : (q.pid == pid) = true
    · rw [if_pos hb] at hmap
      subst hmap
      exact ⟨rfl, by simpa using hbridge⟩
    · rw [Bool.not_eq_true] at hb
      rw [hb] at hmap
      simp only [Bool.false_eq_true, if_false] at hmap
      subst hmap
      exact absurd hpid (by simpa using beq_eq_false_iff_ne.mp hb)
  · intro r hr hne
    have hb : (r.pid == pid) = false := beq_eq_false_iff_ne.mpr hne
    unfold update_proposal_results mapProposal
    simp only [List.mem_map]
    exact ⟨r, hr, by simp [hb]⟩

/-- C4 witness: the amended theorem applied to a concrete failed update,
instantiating the per-row clause on the updated row. -/
theorem update_results_sets_completedAt_witness :
    ∀ r ∈ (update_proposal_results stCompleted "p1" "failed" "audit" none 9).proposals,
      r.pid = "p1" →
        r.status = "failed" ∧
        r.completedAt =
          if ("failed" : String) = "completed" ∨ ("failed" : String) = "failed" then
            some 9 else none :=
  (update_results_sets_completedAt stCompleted "p1" "failed" "audit" none 9).1

/-! Claim C10. -/

/-- C10: can_access_thread is fail-closed: it answers true only when a
proposal with the requested thread id exists and an access row grants the
user that proposal; whenever the lookup or the access check raises it
answers false; and the stream_refinement gate reaches the relay only on a
true answer (a false answer closes the client socket with code 1008). -/
theorem thread_access_fail_closed (st : DBState) (uid tid : String) (lr ar : Bool) :
    (can_access_thread st uid tid lr ar = true →
      ∃ p, p ∈ st.proposals ∧ p.threadId = tid ∧
        ∃ g, g ∈ st.proposalAccess ∧ g.1 = p.pid ∧ g.2.1 = uid) ∧
    ((lr = true ∨ ar = true) → can_access_thread st uid tid lr ar = false) ∧
    (∀ b, stream_refinement_gate b = .relay → b = true) := by
  refine ⟨?_, ?_, ?_⟩
  · intro h
    unfold can_access_thread at h
    cases hlr : lr with
    | true => rw [hlr] at h; simp at h
    | false =>
        rw [hlr] at h
        simp only [Bool.false_eq_true, if_false] at h
        cases hfind : get_proposal_by_thread_id st tid with
        | none => rw [hfind] at h; simp at h
        | some p =>
            rw [hfind] at h
            cases har : ar with
            | true => rw [har] at h; simp at h
            | false =>
                rw [har] at h
                simp only [Bool.false_eq_true, if_false] at h
                unfold can_access_proposal at h
                rw [List.any_eq_true] at h
                obtain ⟨g, hg, hpred⟩ := h
                rw [Bool.and_eq_true, beq_iff_eq, beq_iff_eq] at hpred
                refine ⟨p, List.mem_of_find?_eq_some hfind, ?_, g, hg, hpred.1, hpred.2⟩
                have := List.find?_some hfind
                simpa using this
  · rintro (h | h)
    · rw [h]; rfl
    · rw [h]
      unfold can_access_thread
      cases lr with
      | true => simp
      | false =>
          simp only [Bool.false_eq_true, if_false]
          cases hfind : get_proposal_by_thread_id st tid with
          | none => rfl
          | some p => rfl
  · intro b h
    cases b with
    | true => rfl
    | false => exact absurd h (by simp [stream_refinement_gate])

/-- C10 witness: the fail-closed theorem applied at the concrete state, both
with raising and non-raising service calls. -/
theorem thread_access_fail_closed_witness :
    (∃ p, p ∈ stCompleted.proposals ∧ p.threadId = "refinement-p1" ∧
      ∃ g, g ∈ stCompleted.proposalAccess ∧ g.1 = p.pid ∧ g.2.1 = "u1") ∧
    can_access_thread stCompleted "u1" "refinement-p1" true false = false ∧
    (true : Bool) = true :=
  ⟨(thread_access_fail_closed stCompleted "u1" "refinement-p1" false false).1 (by decide),
   (thread_access_fail_closed stCompleted "u1" "refinement-p1" true false).2.1 (Or.inl rfl),
   (thread_access_fail_closed stCompleted "u1" "refinement-p1" false false).2.2 true rfl⟩

end IdeOrch
